import Mathlib

/-!
Verification development for the RP2-WB simulation engine.

The definitions below are a shallow embedding of the Python sources:
`core/wb_model.py`, `core/montecarlo.py`, `core/dynamics.py`,
`core/metric_effective.py`, `core/phase_dynamics.py`, `core/cluster_utils.py`.
Machine floats are idealised as real numbers; per-node dictionaries become
total functions (the code's `.get(key, default)` lookups are folded into the
function's value off the initialised domain); the Monte Carlo random draw is
an explicit parameter `u` (the value `np.random.random()` would return), and
the weighted neighbour draw of the propagator is an explicit `pick` function
standing for `random.choices`.
-/

open scoped Classical

namespace RP2WB

/-- Topology contract consumed by the engine (`RP2Graph.get_neighbors`,
`RP2Graph.is_ts`): node identifiers are `0 .. numNodes - 1`. -/
structure WBGraph where
  numNodes : ℕ
  adj : ℕ → List ℕ
  ts : ℕ → ℕ → Bool

/-- The numeric configuration record of `WBModel.__init__` (the recognised
keys of `self.config`). -/
structure WBConfig where
  E0 : ℝ
  DeltaE : ℝ
  J_Wb_normal : ℝ
  J_prime_Wb_ts : ℝ
  T_eff : ℝ
  V0_base : ℝ
  N_pot_max_sites_factor : ℝ
  N_pot_initial_fraction : ℝ
  eta1 : ℝ
  eta2 : ℝ
  alpha_phase : ℝ
  beta_asym : ℝ
  delta_Npot_base_actualisation : ℝ
  delta_phi_relaxation_step : ℝ

/-- The mutable model state of `WBModel`: spin field `sigma` (σ), phase field
`phi` (φ), the reservoir `N_pot` and its fixed capacity `N_pot_max`. -/
structure WBModel where
  g : WBGraph
  cfg : WBConfig
  sigma : ℕ → ℤ
  phi : ℕ → ℝ
  N_pot : ℝ
  N_pot_max : ℝ

/-- `WBModel.__init__`: `N_pot_max = num_nodes * N_pot_max_sites_factor`,
`N_pot = N_pot_max * N_pot_initial_fraction`. -/
noncomputable def mkModel (g : WBGraph) (cfg : WBConfig) (sigma : ℕ → ℤ)
    (phi : ℕ → ℝ) : WBModel :=
  { g := g, cfg := cfg, sigma := sigma, phi := phi
    N_pot_max := (g.numNodes : ℝ) * cfg.N_pot_max_sites_factor
    N_pot := (g.numNodes : ℝ) * cfg.N_pot_max_sites_factor *
      cfg.N_pot_initial_fraction }

/-- The reservoir fill level `N_pot / N_pot_max if N_pot_max > 0 else 0`
appearing in `calculate_node_energy` and `calculate_barrier_cost`. -/
noncomputable def npotFrac (m : WBModel) : ℝ :=
  if 0 < m.N_pot_max then m.N_pot / m.N_pot_max else 0

/-- `WBModel.get_effective_rho`: low density 0.1 in state P, otherwise a
density between 0.3 and 1.0 driven by the reservoir level. -/
noncomputable def getEffectiveRho (m : WBModel) (node : ℕ) : ℝ :=
  if m.sigma node = -1 then 0.1
  else 0.3 + 0.7 * (if 0 < m.N_pot_max then m.N_pot / m.N_pot_max else 0)

/-- `WBModel.calculate_interaction_energy`: `-J_eff * cos(φi - φj - A_top)`
when both spins are A, with `J_eff`/`A_top` depending on the TS flag. -/
noncomputable def calculateInteractionEnergy (m : WBModel) (node1 node2 : ℕ) :
    ℝ :=
  if m.sigma node1 = 1 ∧ m.sigma node2 = 1 then
    -(if m.g.ts node1 node2 then m.cfg.J_prime_Wb_ts else m.cfg.J_Wb_normal) *
      Real.cos (m.phi node1 - m.phi node2 -
        (if m.g.ts node1 node2 then Real.pi else 0))
  else 0

/-- `WBModel.calculate_node_energy`: base term
`E0 - σi * DeltaE * (2 * N_pot_ratio - 1)` plus the neighbour interactions. -/
noncomputable def calculateNodeEnergy (m : WBModel) (node : ℕ) : ℝ :=
  m.cfg.E0 - (m.sigma node : ℝ) * (m.cfg.DeltaE * (2 * npotFrac m - 1)) +
    ((m.g.adj node).map (fun j => calculateInteractionEnergy m node j)).sum

/-- One neighbour's contribution to `total_barrier` in
`WBModel.calculate_barrier_cost`: barriers live on TS links only; a P→A flip
pays `V0_base * (1 + phase_term) * G_Npot`, an A→P flip next to an A
neighbour pays `V0_base * (beta_asym + phase_term) * F_Npot`. Unlike
`calculate_node_energy`, this source function divides `N_pot / N_pot_max`
without the `N_pot_max > 0` guard. -/
noncomputable def barrierTerm (m : WBModel) (node j : ℕ) (proposed : ℤ) : ℝ :=
  if m.g.ts node j then
    (let phaseTerm := m.cfg.alpha_phase *
        (1 - Real.cos (m.phi node - m.phi j - Real.pi));
     if m.sigma node = -1 ∧ proposed = 1 then
       m.cfg.V0_base * (1 + phaseTerm) *
         (max 0.01 (max 0 (1 - m.N_pot / m.N_pot_max))) ^ m.cfg.eta1
     else if m.sigma node = 1 ∧ proposed = -1 then
       (if m.sigma j = 1 then
         m.cfg.V0_base * (m.cfg.beta_asym + phaseTerm) *
           (max 0.01 (max 0 (m.N_pot / m.N_pot_max))) ^ m.cfg.eta2
       else 0)
     else 0)
  else 0

/-- One neighbour's contribution to `potential_N_pot_consumption` in
`WBModel.calculate_barrier_cost`: only the P→A branch accumulates it. -/
noncomputable def consumptionTerm (m : WBModel) (node j : ℕ) (proposed : ℤ) :
    ℝ :=
  if m.g.ts node j ∧ m.sigma node = -1 ∧ proposed = 1 then
    barrierTerm m node j proposed
  else 0

/-- `WBModel.calculate_barrier_cost` as the pair
`(total_barrier, potential_N_pot_consumption)`. -/
noncomputable def calculateBarrierCost (m : WBModel) (node : ℕ)
    (proposed : ℤ) : ℝ × ℝ :=
  (((m.g.adj node).map (fun j => barrierTerm m node j proposed)).sum,
   ((m.g.adj node).map (fun j => consumptionTerm m node j proposed)).sum)

/-- The `total_cost` returned by `WBModel.can_afford_transition`:
`delta_Npot_base_actualisation + potential_N_pot_consumption` for a P→A
proposal, `0.0` otherwise. -/
noncomputable def affordCost (m : WBModel) (node : ℕ) (proposed : ℤ) : ℝ :=
  if m.sigma node = -1 ∧ proposed = 1 then
    m.cfg.delta_Npot_base_actualisation +
      (calculateBarrierCost m node proposed).2
  else 0

/-- The boolean part of `WBModel.can_afford_transition`:
`N_pot >= total_cost` for P→A proposals, unconditionally true otherwise. -/
noncomputable def canAffordTransition (m : WBModel) (node : ℕ)
    (proposed : ℤ) : Prop :=
  m.sigma node = -1 ∧ proposed = 1 → affordCost m node proposed ≤ m.N_pot

/-- `WBModel.update_N_pot`: `N_pot = max(0.0, N_pot - cost)` — clamped below
only. -/
noncomputable def updateNPot (npot cost : ℝ) : ℝ := max 0 (npot - cost)

/-- The `T_eff > 1e-9` guard of `metropolis_step` ("avoid division by
zero"). -/
noncomputable def tEffGuard : ℝ := 1 / 1000000000

/-- The model with the spin of `node` temporarily set to `proposed`, used by
`metropolis_step` to evaluate the proposed energy. -/
noncomputable def withSigma (m : WBModel) (node : ℕ) (proposed : ℤ) :
    WBModel :=
  { m with sigma := Function.update m.sigma node proposed }

/-- The total energy difference of `metropolis_step`:
`(proposed_energy - current_energy) + barrier_cost`, for the default
proposal `proposed_sigma = -current_sigma` used by `monte_carlo_sweep`. -/
noncomputable def deltaEnergyTotal (m : WBModel) (node : ℕ) : ℝ :=
  calculateNodeEnergy (withSigma m node (-(m.sigma node))) node -
    calculateNodeEnergy m node +
    (calculateBarrierCost m node (-(m.sigma node))).1

/-- The acceptance condition of `metropolis_step` for the uniform draw `u`:
affordable, and either the total delta is `≤ 0` or (`T_eff > 1e-9` and
`u < exp(-delta / T_eff)`). -/
noncomputable def metropolisAccepts (m : WBModel) (node : ℕ) (u : ℝ) : Prop :=
  canAffordTransition m node (-(m.sigma node)) ∧
    (deltaEnergyTotal m node ≤ 0 ∨
      (tEffGuard < m.cfg.T_eff ∧
        u < Real.exp (-deltaEnergyTotal m node / m.cfg.T_eff)))

/-- The model state after `metropolis_step(model, node)` with uniform draw
`u`: on acceptance the spin is flipped and, for a P→A transition only,
`N_pot` is debited via `update_N_pot`; otherwise the state is returned
unchanged. -/
noncomputable def metropolisResult (m : WBModel) (node : ℕ) (u : ℝ) :
    WBModel :=
  if metropolisAccepts m node u then
    { m with sigma := Function.update m.sigma node (-(m.sigma node))
             N_pot :=
               if m.sigma node = -1 ∧ -(m.sigma node) = 1 then
                 updateNPot m.N_pot (affordCost m node (-(m.sigma node)))
               else m.N_pot }
  else m

/-- The inner loop of `monte_carlo_sweep`: visit the nodes of `order` in
sequence, feeding each visit the next value `us k` of the uniform random
stream. -/
noncomputable def sweepFrom (us : ℕ → ℝ) : WBModel → List ℕ → ℕ → WBModel
  | m, [], _ => m
  | m, i :: rest, k => sweepFrom us (metropolisResult m i (us k)) rest (k + 1)

/-- Python's `%` on reals with a positive modulus: `x - p * floor(x / p)`. -/
noncomputable def pyMod (x p : ℝ) : ℝ := x - p * (⌊x / p⌋ : ℤ)

/-- The XY force `phi_forces[i]` of `relax_phases`: sum over neighbours in
state A of `-J_eff * sin(φi - φj - A_top)`; zero for nodes not in state A. -/
noncomputable def relaxForce (m : WBModel) (i : ℕ) : ℝ :=
  if m.sigma i = 1 then
    ((m.g.adj i).map (fun j =>
      if m.sigma j = 1 then
        -(if m.g.ts i j then m.cfg.J_prime_Wb_ts else m.cfg.J_Wb_normal) *
          Real.sin (m.phi i - m.phi j -
            (if m.g.ts i j then Real.pi else 0))
      else 0)).sum
  else 0

/-- One iteration of the `relax_phases` loop: all forces are computed from
the pre-step phases, then every A node with index `< num_nodes` is moved by
`delta_phi_relaxation_step * force` and re-normalised with `% (2π)` (the
subsequent `if phi < 0` fix-up of the source is kept verbatim). -/
noncomputable def relaxOnce (m : WBModel) : WBModel :=
  { m with phi := fun i =>
      if i < m.g.numNodes ∧ m.sigma i = 1 then
        (let y := pyMod
            (m.phi i + m.cfg.delta_phi_relaxation_step * relaxForce m i)
            (2 * Real.pi);
         if y < 0 then y + 2 * Real.pi else y)
      else m.phi i }

/-- `relax_phases(model, num_steps)`: `num_steps` iterations of the
relaxation loop (the returned coherence value is not modelled). -/
noncomputable def relaxPhases (m : WBModel) : ℕ → WBModel
  | 0 => m
  | k + 1 => relaxPhases (relaxOnce m) k

/-! ### Effective metric (`core/metric_effective.py`)

`compute_g_eff` is a pure function of the density field; its three outputs
are embedded as the functions below (the dictionaries `model.g_eff_iso`,
`model.g_eff_aniso`, `model.g_eff_T`). -/

/-- `grad2_i = sum_j (rho_i - rho_j)**2` over the neighbours of `i`. -/
noncomputable def gradTwo (adj : ℕ → List ℕ) (rho : ℕ → ℝ) (i : ℕ) : ℝ :=
  ((adj i).map (fun j => (rho i - rho j) ^ 2)).sum

/-- `f_i = 1/(1 + alpha * rho_i**n)`. -/
noncomputable def gEffIso (rho : ℕ → ℝ) (alpha n : ℝ) (i : ℕ) : ℝ :=
  1 / (1 + alpha * rho i ^ n)

/-- `h_i = beta*grad2_i + eps0**2 * rho_i**m * grad2_i**p`. -/
noncomputable def gEffAniso (adj : ℕ → List ℕ) (rho : ℕ → ℝ)
    (beta eps0 mExp pExp : ℝ) (i : ℕ) : ℝ :=
  beta * gradTwo adj rho i + eps0 ^ 2 * rho i ^ mExp * gradTwo adj rho i ^ pExp

/-- `T_ij = (rho_i - rho_j)**2 / (grad2_i + eps0**2)` for the ordered pair
`(i, j)`: the denominator is the source node's own gradient. -/
noncomputable def gEffT (adj : ℕ → List ℕ) (rho : ℕ → ℝ) (eps0 : ℝ)
    (i j : ℕ) : ℝ :=
  (rho i - rho j) * (rho i - rho j) / (gradTwo adj rho i + eps0 ^ 2)

/-! ### Metric-biased propagation (`core/phase_dynamics.py`) -/

/-- The two ways `next_twist_step` fails in the source: `random.choices` on
an empty population (no neighbours) raises `IndexError`, and building
`probs = [w / total ...]` with `total == 0` raises `ZeroDivisionError`. -/
inductive DrawError where
  | emptyPopulation : DrawError
  | zeroDivision : DrawError
deriving DecidableEq

/-- The weight list of `next_twist_step`:
`w_iso + w_aniso = g_eff_iso[i] + g_eff_aniso[i] * g_eff_T[(i, j)]` for each
neighbour `j`. -/
noncomputable def twistWeights (adj : ℕ → List ℕ) (iso aniso : ℕ → ℝ)
    (T : ℕ → ℕ → ℝ) (i : ℕ) : List ℝ :=
  (adj i).map (fun j => iso i + aniso i * T i j)

/-- `next_twist_step(model, i)`: normalise the metric weights over the
neighbour list and draw one neighbour. `pick` stands for the
`random.choices` draw (given the node, the population and the normalised
probabilities); the two degenerate situations raise instead of returning. -/
noncomputable def nextTwistStep (adj : ℕ → List ℕ) (iso aniso : ℕ → ℝ)
    (T : ℕ → ℕ → ℝ) (pick : ℕ → List ℕ → List ℝ → ℕ) (i : ℕ) :
    Except DrawError ℕ :=
  if adj i = [] then .error .emptyPopulation
  else if (twistWeights adj iso aniso T i).sum = 0 then .error .zeroDivision
  else .ok (pick i (adj i)
    ((twistWeights adj iso aniso T i).map
      (fun w => w / (twistWeights adj iso aniso T i).sum)))

/-- The phase loop of `update_phase_and_rho`: for each node draw a neighbour
`j` and set `new_phi[i] = (angle(exp(1j*phi_j)) + c3*rho_i + c2*(rho_i -
rho_j)**2) % (2*pi)`; a raise in the draw aborts the whole update. -/
noncomputable def phiPass (adj : ℕ → List ℕ) (iso aniso : ℕ → ℝ)
    (T : ℕ → ℕ → ℝ) (pick : ℕ → List ℕ → List ℝ → ℕ) (rho phi : ℕ → ℝ)
    (c2 c3 : ℝ) : List ℕ → (ℕ → ℝ) → Except DrawError (ℕ → ℝ)
  | [], acc => .ok acc
  | i :: rest, acc =>
    match nextTwistStep adj iso aniso T pick i with
    | .error e => .error e
    | .ok j =>
      phiPass adj iso aniso T pick rho phi c2 c3 rest
        (Function.update acc i
          (pyMod (Complex.arg (Complex.exp ((phi j : ℂ) * Complex.I)) +
              (c3 * rho i + c2 * (rho i - rho j) ^ 2))
            (2 * Real.pi)))

/-- The density loop of `update_phase_and_rho`: an independent second draw
per node, then `new_rho[i] = base + 0.3 * coherence**2` with
`base = 0.1` for σ = -1 and `0.6` otherwise, and
`coherence = abs(exp(1j * new_phi[j]))`. -/
noncomputable def rhoPass (adj : ℕ → List ℕ) (iso aniso : ℕ → ℝ)
    (T : ℕ → ℕ → ℝ) (pick : ℕ → List ℕ → List ℝ → ℕ) (sigma : ℕ → ℤ)
    (newPhi : ℕ → ℝ) : List ℕ → (ℕ → ℝ) → Except DrawError (ℕ → ℝ)
  | [], acc => .ok acc
  | i :: rest, acc =>
    match nextTwistStep adj iso aniso T pick i with
    | .error e => .error e
    | .ok j =>
      rhoPass adj iso aniso T pick sigma newPhi rest
        (Function.update acc i
          ((if sigma i = -1 then 0.1 else 0.6) +
            0.3 * Complex.abs (Complex.exp ((newPhi j : ℂ) * Complex.I)) ^ 2))

/-- `update_phase_and_rho(model, c2, c3)`: run the phase loop, then the
density loop against the freshly built `new_phi` dictionary, and finally
merge both dictionaries into the model fields (`model.phi.update(new_phi)`,
`model.rho.update(new_rho)`). The result is the pair (new phase field, new
density field); any raise inside a loop propagates and leaves the model
untouched. -/
noncomputable def updatePhaseAndRho (adj : ℕ → List ℕ) (iso aniso : ℕ → ℝ)
    (T : ℕ → ℕ → ℝ) (pick1 pick2 : ℕ → List ℕ → List ℝ → ℕ) (sigma : ℕ → ℤ)
    (rho phi : ℕ → ℝ) (c2 c3 : ℝ) (nodes : List ℕ) :
    Except DrawError ((ℕ → ℝ) × (ℕ → ℝ)) :=
  match phiPass adj iso aniso T pick1 rho phi c2 c3 nodes (fun _ => 0) with
  | .error e => .error e
  | .ok newPhi =>
    match rhoPass adj iso aniso T pick2 sigma newPhi nodes (fun _ => 0) with
    | .error e => .error e
    | .ok newRho =>
      .ok (fun i => if i ∈ nodes then newPhi i else phi i,
           fun i => if i ∈ nodes then newRho i else rho i)

/-! ### Soliton clusters (`core/cluster_utils.py`) and the dissolution
accountant

`find_soliton_clusters` is embedded generically over a linearly ordered
field so that concrete instances are executable. The breadth-first search
of the source terminates because every node is enqueued at most once (it is
added to `visited` when enqueued); the embedding makes that measure explicit
through a fuel argument large enough never to run out on the inputs the
theorems touch — the theorems below only constrain runs through the
function's actual output. -/

/-- The BFS loop of `find_soliton_clusters`: pop the queue head, append it
to the cluster, and enqueue every unvisited neighbour whose density reaches
the threshold (adding it to `visited` as it is enqueued). Returns the
finished cluster and the updated visited list. -/
def solitonBfs {α : Type} [LinearOrderedField α] (adj : ℕ → List ℕ)
    (rho : ℕ → α) (threshold : α) :
    ℕ → List ℕ → List ℕ → List ℕ → List ℕ × List ℕ
  | 0, _, visited, cluster => (cluster, visited)
  | _ + 1, [], visited, cluster => (cluster, visited)
  | fuel + 1, u :: queue, visited, cluster =>
    let step := (adj u).foldl
      (fun (p : List ℕ × List ℕ) v =>
        if v ∉ p.2 ∧ threshold ≤ rho v then (p.1 ++ [v], p.2 ++ [v]) else p)
      (queue, visited)
    solitonBfs adj rho threshold fuel step.1 step.2 (cluster ++ [u])

/-- Fuel bound for the BFS: one unit per queue pop; every popped node was
enqueued, and at most `1 + Σ |adj i|` nodes are ever enqueued per seed. -/
def solitonFuel (adj : ℕ → List ℕ) (nodes : List ℕ) : ℕ :=
  1 + nodes.length + ((nodes.map (fun i => (adj i).length)).sum)

/-- `find_soliton_clusters(graph, rho, threshold)`: iterate over the nodes
in dictionary order, skip nodes below the threshold or already visited, and
grow a breadth-first cluster from each remaining seed. -/
def findSolitonClusters {α : Type} [LinearOrderedField α]
    (adj : ℕ → List ℕ) (nodes : List ℕ) (rho : ℕ → α) (threshold : α) :
    List (List ℕ) :=
  (nodes.foldl
    (fun (p : List (List ℕ) × List ℕ) i =>
      if rho i < threshold ∨ i ∈ p.2 then p
      else
        let r := solitonBfs adj rho threshold (solitonFuel adj nodes) [i]
          (p.2 ++ [i]) []
        (p.1 ++ [r.1], r.2))
    ([], [])).1

/-- The dissolution condition of spec §4.5 for one component: some member
was A in the pre-sweep snapshot and every member is P now. -/
def dissolved (prior current : ℕ → ℤ) (c : List ℕ) : Bool :=
  c.any (fun i => prior i == 1) && c.all (fun i => current i == -1)

/-- Modelled from the spec: the refund application of the Cluster
Dissolution Accountant (spec §4.5, §7) is not present in `src/` — only its
cluster enumeration `find_soliton_clusters` is. Per the spec, a component
that fully deactivated since the start of the tick refunds
`refund_factor · Σ(density over members)` to the reservoir, clamped into
`[0, reservoir_max]`; other components are inert. -/
def clusterRefundStep {α : Type} [LinearOrderedField α]
    (refundFactor npotMax : α) (prior current : ℕ → ℤ) (rho : ℕ → α)
    (npot : α) (c : List ℕ) : α :=
  if dissolved prior current c then
    min npotMax (max 0 (npot + refundFactor * (c.map rho).sum))
  else npot

/-- Modelled from the spec: the Cluster Dissolution Accountant processes
every component found by `find_soliton_clusters` in order, applying the
clamped refund of `clusterRefundStep` to the reservoir. -/
def clusterAccountant {α : Type} [LinearOrderedField α] (adj : ℕ → List ℕ)
    (nodes : List ℕ) (rho : ℕ → α) (threshold refundFactor npotMax : α)
    (prior current : ℕ → ℤ) (npot : α) : α :=
  (findSolitonClusters adj nodes rho threshold).foldl
    (clusterRefundStep refundFactor npotMax prior current rho) npot

/-! ### Helper lemmas -/

/-- Configuration conditions making every reservoir debit nonnegative: the
barrier height, the phase-term coefficient and the base activation cost are
nonnegative (all hold for the defaults `V0_base = 0.5`,
`alpha_phase = 0.5`, `delta_Npot_base_actualisation = 0.1`). -/
def BarrierOK (cfg : WBConfig) : Prop :=
  0 ≤ cfg.V0_base ∧ 0 ≤ cfg.alpha_phase ∧
    0 ≤ cfg.delta_Npot_base_actualisation

/-- The reservoir invariant of spec §3: `0 ≤ N_pot ≤ N_pot_max`. -/
def NPotInv (m : WBModel) : Prop := 0 ≤ m.N_pot ∧ m.N_pot ≤ m.N_pot_max

theorem consumptionTerm_nonneg (m : WBModel) (node j : ℕ) (proposed : ℤ)
    (hV0 : 0 ≤ m.cfg.V0_base) (ha : 0 ≤ m.cfg.alpha_phase) :
    0 ≤ consumptionTerm m node j proposed := by
  rw [consumptionTerm]
  split
  · next h =>
    rw [barrierTerm, if_pos h.1, if_pos ⟨h.2.1, h.2.2⟩]
    refine mul_nonneg (mul_nonneg hV0 ?_) ?_
    · have h1 : 1 - Real.cos (m.phi node - m.phi j - Real.pi) ≥ 0 := by
        have := Real.cos_le_one (m.phi node - m.phi j - Real.pi)
        linarith
      have := mul_nonneg ha h1
      linarith
    · exact le_of_lt (Real.rpow_pos_of_pos (by positivity) _)
  · exact le_refl 0

theorem affordCost_nonneg (m : WBModel) (node : ℕ) (proposed : ℤ)
    (hb : BarrierOK m.cfg) : 0 ≤ affordCost m node proposed := by
  rw [affordCost]
  split
  · refine add_nonneg hb.2.2 (List.sum_nonneg ?_)
    intro x hx
    obtain ⟨j, -, rfl⟩ := List.mem_map.mp hx
    exact consumptionTerm_nonneg m node j proposed hb.1 hb.2.1
  · exact le_refl 0

theorem metropolisResult_npot_le (m : WBModel) (node : ℕ) (u : ℝ)
    (hb : BarrierOK m.cfg) (h0 : 0 ≤ m.N_pot) :
    (metropolisResult m node u).N_pot ≤ m.N_pot := by
  rw [metropolisResult]
  split
  · dsimp only
    split
    · exact max_le h0 (sub_le_self _ (affordCost_nonneg m node _ hb))
    · exact le_refl _
  · exact le_refl _

theorem metropolisResult_npot_nonneg (m : WBModel) (node : ℕ) (u : ℝ)
    (h0 : 0 ≤ m.N_pot) : 0 ≤ (metropolisResult m node u).N_pot := by
  rw [metropolisResult]
  split
  · dsimp only
    split
    · exact le_max_left 0 _
    · exact h0
  · exact h0

theorem metropolisResult_cfg (m : WBModel) (node : ℕ) (u : ℝ) :
    (metropolisResult m node u).cfg = m.cfg := by
  rw [metropolisResult]; split <;> rfl

theorem metropolisResult_npotmax (m : WBModel) (node : ℕ) (u : ℝ) :
    (metropolisResult m node u).N_pot_max = m.N_pot_max := by
  rw [metropolisResult]; split <;> rfl

theorem metropolisResult_inv (m : WBModel) (node : ℕ) (u : ℝ)
    (hb : BarrierOK m.cfg) (h : NPotInv m) :
    NPotInv (metropolisResult m node u) := by
  refine ⟨metropolisResult_npot_nonneg m node u h.1, ?_⟩
  rw [metropolisResult_npotmax]
  exact le_trans (metropolisResult_npot_le m node u hb h.1) h.2

theorem sweepFrom_inv (us : ℕ → ℝ) (order : List ℕ) :
    ∀ (m : WBModel) (k : ℕ), BarrierOK m.cfg → NPotInv m →
      NPotInv (sweepFrom us m order k) := by
  induction order with
  | nil => intro m k _ h; exact h
  | cons i rest ih =>
    intro m k hb h
    rw [sweepFrom]
    exact ih _ _ (by rw [metropolisResult_cfg]; exact hb)
      (metropolisResult_inv m i (us k) hb h)

theorem sweepFrom_npot_le (us : ℕ → ℝ) (order : List ℕ) :
    ∀ (m : WBModel) (k : ℕ), BarrierOK m.cfg → 0 ≤ m.N_pot →
      (sweepFrom us m order k).N_pot ≤ m.N_pot := by
  induction order with
  | nil => intro m k _ _; exact le_refl _
  | cons i rest ih =>
    intro m k hb h
    rw [sweepFrom]
    exact le_trans
      (ih _ _ (by rw [metropolisResult_cfg]; exact hb)
        (metropolisResult_npot_nonneg m i (us k) h))
      (metropolisResult_npot_le m i (us k) hb h)

theorem relaxPhases_npot (k : ℕ) :
    ∀ m : WBModel, (relaxPhases m k).N_pot = m.N_pot ∧
      (relaxPhases m k).N_pot_max = m.N_pot_max := by
  induction k with
  | zero => intro m; exact ⟨rfl, rfl⟩
  | succ n ih =>
    intro m
    rw [relaxPhases]
    exact ih (relaxOnce m)

theorem mkModel_inv (g : WBGraph) (cfg : WBConfig) (sigma : ℕ → ℤ)
    (phi : ℕ → ℝ) (hf0 : 0 ≤ cfg.N_pot_initial_fraction)
    (hf1 : cfg.N_pot_initial_fraction ≤ 1)
    (hs : 0 ≤ cfg.N_pot_max_sites_factor) :
    NPotInv (mkModel g cfg sigma phi) := by
  constructor
  · exact mul_nonneg (mul_nonneg (Nat.cast_nonneg _) hs) hf0
  · exact mul_le_of_le_one_right (mul_nonneg (Nat.cast_nonneg _) hs) hf1

theorem accountant_inert {α : Type} [LinearOrderedField α] (rf maxN : α)
    (prior current : ℕ → ℤ) (rho : ℕ → α) (cs : List (List ℕ)) :
    ∀ npot : α, (∀ c ∈ cs, dissolved prior current c = false) →
      cs.foldl (clusterRefundStep rf maxN prior current rho) npot = npot := by
  induction cs with
  | nil => intro npot _; rfl
  | cons c rest ih =>
    intro npot h
    rw [List.foldl_cons, clusterRefundStep, if_neg (by simp [h c (by simp)]),
      ih npot (fun c' hc' => h c' (by simp [hc']))]

theorem accountant_fold_bounds {α : Type} [LinearOrderedField α]
    (rf maxN : α) (prior current : ℕ → ℤ) (rho : ℕ → α)
    (cs : List (List ℕ)) :
    ∀ npot : α, 0 ≤ npot → npot ≤ maxN →
      0 ≤ cs.foldl (clusterRefundStep rf maxN prior current rho) npot ∧
        cs.foldl (clusterRefundStep rf maxN prior current rho) npot ≤
          maxN := by
  induction cs with
  | nil => intro npot h0 h1; exact ⟨h0, h1⟩
  | cons c rest ih =>
    intro npot h0 h1
    rw [List.foldl_cons]
    refine ih _ ?_ ?_
    · rw [clusterRefundStep]
      split
      · exact le_min (le_trans h0 h1) (le_max_left 0 _)
      · exact h0
    · rw [clusterRefundStep]
      split
      · exact min_le_left _ _
      · exact h1

theorem nextTwistStep_ok (adj : ℕ → List ℕ) (iso aniso : ℕ → ℝ)
    (T : ℕ → ℕ → ℝ) (pick : ℕ → List ℕ → List ℝ → ℕ) (i : ℕ)
    (h1 : adj i ≠ []) (h2 : (twistWeights adj iso aniso T i).sum ≠ 0) :
    nextTwistStep adj iso aniso T pick i =
      .ok (pick i (adj i) ((twistWeights adj iso aniso T i).map
        (fun w => w / (twistWeights adj iso aniso T i).sum))) := by
  rw [nextTwistStep, if_neg h1, if_neg h2]

theorem phiPass_ok (adj : ℕ → List ℕ) (iso aniso : ℕ → ℝ) (T : ℕ → ℕ → ℝ)
    (pick : ℕ → List ℕ → List ℝ → ℕ) (rho phi : ℕ → ℝ) (c2 c3 : ℝ)
    (l : List ℕ) :
    ∀ acc : ℕ → ℝ,
      (∀ j ∈ l, adj j ≠ [] ∧ (twistWeights adj iso aniso T j).sum ≠ 0) →
      ∃ f, phiPass adj iso aniso T pick rho phi c2 c3 l acc = .ok f := by
  induction l with
  | nil => intro acc _; exact ⟨acc, rfl⟩
  | cons a rest ih =>
    intro acc h
    obtain ⟨ha1, ha2⟩ := h a (by simp)
    obtain ⟨f, hok⟩ := ih _ (fun j hj => h j (by simp [hj]))
    refine ⟨f, ?_⟩
    rw [phiPass, nextTwistStep_ok adj iso aniso T pick a ha1 ha2]
    exact hok

theorem rhoPass_ok (adj : ℕ → List ℕ) (iso aniso : ℕ → ℝ) (T : ℕ → ℕ → ℝ)
    (pick : ℕ → List ℕ → List ℝ → ℕ) (sigma : ℕ → ℤ) (newPhi : ℕ → ℝ)
    (l : List ℕ) :
    ∀ acc : ℕ → ℝ,
      (∀ j ∈ l, adj j ≠ [] ∧ (twistWeights adj iso aniso T j).sum ≠ 0) →
      ∃ f, rhoPass adj iso aniso T pick sigma newPhi l acc = .ok f ∧
        ∀ i : ℕ, (i ∈ l → f i = (if sigma i = -1 then (0.4 : ℝ) else 0.9)) ∧
          (i ∉ l → f i = acc i) := by
  induction l with
  | nil =>
    intro acc _
    exact ⟨acc, rfl, fun i => ⟨fun h => absurd h (List.not_mem_nil i),
      fun _ => rfl⟩⟩
  | cons a rest ih =>
    intro acc h
    obtain ⟨ha1, ha2⟩ := h a (by simp)
    obtain ⟨f, hok, hval⟩ := ih
      (Function.update acc a
        ((if sigma a = -1 then 0.1 else 0.6) +
          0.3 * Complex.abs (Complex.exp
            ((newPhi (pick a (adj a) ((twistWeights adj iso aniso T a).map
              (fun w => w / (twistWeights adj iso aniso T a).sum))) : ℂ) *
              Complex.I)) ^ 2))
      (fun j hj => h j (by simp [hj]))
    refine ⟨f, ?_, ?_⟩
    · rw [rhoPass, nextTwistStep_ok adj iso aniso T pick a ha1 ha2]
      exact hok
    · intro i
      constructor
      · intro hi
        rcases List.mem_cons.mp hi with hia | hir
        · by_cases hmem : i ∈ rest
          · exact (hval i).1 hmem
          · rw [(hval i).2 hmem, hia, Function.update_same,
              Complex.abs_exp_ofReal_mul_I]
            by_cases hs : sigma a = -1 <;> simp [hs] <;> norm_num
        · exact (hval i).1 hir
      · intro hi
        rw [(hval i).2 (fun hr => hi (by simp [hr])),
          Function.update_noteq (fun he => hi (by simp [he]))]

theorem pyMod_eq_self {x p : ℝ} (h0 : 0 ≤ x) (hp : x < p) : pyMod x p = x := by
  have hppos : 0 < p := lt_of_le_of_lt h0 hp
  rw [pyMod]
  have hz : ⌊x / p⌋ = 0 := by
    rw [Int.floor_eq_zero_iff]
    constructor
    · positivity
    · rw [div_lt_one hppos]
      exact hp
  rw [hz]
  norm_num

theorem sum_map_ite_eq_sum_filter (l : List ℕ) (p : ℕ → Bool) (f : ℕ → ℝ) :
    (l.map (fun j => if p j then f j else 0)).sum =
      ((l.filter p).map f).sum := by
  induction l with
  | nil => rfl
  | cons a rest ih =>
    by_cases h : p a
    · simp [List.filter_cons, h, ih]
    · simp [List.filter_cons, h, ih]

/-- For a node with no neighbours the two energy sums and the barrier sums
of `metropolis_step` are empty, so the total delta is the pure internal
term `2 * σ * DeltaE * (2 * N_pot_ratio - 1)`. -/
theorem deltaEnergyTotal_isolated (m : WBModel) (node : ℕ)
    (h : m.g.adj node = []) :
    deltaEnergyTotal m node =
      2 * (m.sigma node : ℝ) * (m.cfg.DeltaE * (2 * npotFrac m - 1)) := by
  rw [deltaEnergyTotal, calculateBarrierCost, calculateNodeEnergy,
    calculateNodeEnergy]
  simp only [withSigma, h, List.map_nil, List.sum_nil, Function.update_same,
    npotFrac]
  push_cast
  ring

/-! ### Concrete instances

Small graphs, configurations and models used to exhibit concrete behaviour
of the embedded functions. Configuration records list the fields in
declaration order: `E0, DeltaE, J_Wb_normal, J_prime_Wb_ts, T_eff, V0_base,
N_pot_max_sites_factor, N_pot_initial_fraction, eta1, eta2, alpha_phase,
beta_asym, delta_Npot_base_actualisation, delta_phi_relaxation_step`. -/

/-- A single isolated node (no edges). -/
def gI : WBGraph := ⟨1, fun _ => [], fun _ _ => false⟩

/-- Two nodes joined by a single TS edge. -/
def g9 : WBGraph :=
  ⟨2, fun i => if i = 0 then [1] else if i = 1 then [0] else [],
   fun _ _ => true⟩

/-- Two nodes joined by a single normal edge. -/
def g7 : WBGraph :=
  ⟨2, fun i => if i = 0 then [1] else if i = 1 then [0] else [],
   fun _ _ => false⟩

/-- Default-like configuration with `DeltaE = 0` (flat internal energy). -/
noncomputable def cfg3 : WBConfig :=
  ⟨0, 0, 1, 1, 0.1, 0.5, 10, 0.5, 1, 1, 0.5, 2, 0.1, 0.1⟩

/-- One active isolated node, reservoir at 5 of 10. -/
noncomputable def m3 : WBModel := mkModel gI cfg3 (fun _ => 1) (fun _ => 0)

/-- Configuration with `T_eff` exactly at the `1e-9` guard. -/
noncomputable def cfg4 : WBConfig :=
  ⟨0, 0.1, 1, 1, tEffGuard, 0.5, 10, 0.25, 1, 1, 0.5, 2, 0.1, 0.1⟩

/-- One inactive isolated node, reservoir at 2.5 of 10, guard temperature:
the activation proposal has delta `= 0.1 > 0`. -/
noncomputable def m4 : WBModel := mkModel gI cfg4 (fun _ => -1) (fun _ => 0)

/-- Same as `cfg4` with an ordinary temperature `T_eff = 1`. -/
noncomputable def cfg4w : WBConfig :=
  ⟨0, 0.1, 1, 1, 1, 0.5, 10, 0.25, 1, 1, 0.5, 2, 0.1, 0.1⟩

/-- One inactive isolated node at temperature 1. -/
noncomputable def m4w : WBModel := mkModel gI cfg4w (fun _ => -1) (fun _ => 0)

/-- Configuration with a negative barrier height `V0_base = -1`,
`alpha_phase = 0`, zero base activation cost and `DeltaE = 0`. -/
noncomputable def cfg9 : WBConfig :=
  ⟨0, 0, 1, 1, 0.1, -1, 5, 0.5, 1, 1, 0, 2, 0, 0.1⟩

/-- Two inactive nodes joined by a TS edge under `cfg9`, reservoir at 5 of
10: activating node 0 is accepted and its total cost is `-1/2`. -/
noncomputable def m9 : WBModel := mkModel g9 cfg9 (fun _ => -1) (fun _ => 0)

/-- Default-like configuration (used for the relaxation instance). -/
noncomputable def cfg7 : WBConfig :=
  ⟨0, 0.1, 1, 1, 0.1, 0.5, 10, 0.9, 1, 1, 0.5, 2, 0.1, 0.1⟩

/-- Two active nodes on a normal edge with phases `0` and `π/2`. -/
noncomputable def m7 : WBModel :=
  mkModel g7 cfg7 (fun _ => 1) (fun i => if i = 0 then 0 else Real.pi / 2)

/-- One active isolated node with phase 1 (for the no-active-neighbour
relaxation branch). -/
noncomputable def m7i : WBModel := mkModel gI cfg7 (fun _ => 1) (fun _ => 1)

/-- Initial fill fraction `-1` (still `≤ 1`), base activation cost `0.1`. -/
noncomputable def cfgBad : WBConfig :=
  ⟨0, 0.1, 1, 1, 0.1, 0.5, 10, -1, 1, 1, 0.5, 2, 0.1, 0.1⟩

/-- Initial fill fraction `0.001`: the reservoir starts at `0.01`, below the
base activation cost `0.1`. -/
noncomputable def cfgC5 : WBConfig :=
  ⟨0, 0, 1, 1, 0.1, 0.5, 10, 0.001, 1, 1, 0.5, 2, 0.1, 0.1⟩

/-- One inactive isolated node that cannot afford its activation. -/
noncomputable def mC5 : WBModel := mkModel gI cfgC5 (fun _ => -1) (fun _ => 0)

/-- Two-node adjacency `0 - 1` as a bare function (for the propagator and
cluster instances). -/
def adjW : ℕ → List ℕ :=
  fun i => if i = 0 then [1] else if i = 1 then [0] else []

/-- Constant isotropic weight 1. -/
noncomputable def isoW : ℕ → ℝ := fun _ => 1

/-- Constant anisotropic weight 0. -/
noncomputable def anisoW : ℕ → ℝ := fun _ => 0

/-- Constant directional weight 0. -/
noncomputable def tW : ℕ → ℕ → ℝ := fun _ _ => 0

/-- A concrete `random.choices` stand-in: always the first neighbour. -/
def pickW : ℕ → List ℕ → List ℝ → ℕ := fun _ pop _ => pop.headI

/-- Path adjacency `0 - 1 - 2`. -/
def adjC8 : ℕ → List ℕ :=
  fun i => if i = 0 then [1] else if i = 1 then [0, 2] else
    if i = 2 then [1] else []

/-- Densities `0, 1, 2` on the path: node 1 has a larger local gradient than
node 0. -/
noncomputable def rhoC8 : ℕ → ℝ :=
  fun i => if i = 0 then 0 else if i = 1 then 1 else 2

/-! ### Claim theorems -/

/-- C3 (amended): an accepted deactivation (σ = 1, so the default proposal
is the A→P flip) never changes the reservoir — `can_afford_transition`
returns cost `0.0` for A→P and `metropolis_step` updates `N_pot` only on
P→A flips; no refund of `refund_factor · density` exists in the code,
whatever the node's density. -/
theorem c3_deactivation_no_refund (m : WBModel) (node : ℕ) (u : ℝ)
    (hs : m.sigma node = 1) :
    (metropolisResult m node u).N_pot = m.N_pot := by
  rw [metropolisResult]
  split
  · dsimp only
    rw [if_neg (by rw [hs]; norm_num)]
  · rfl

/-- C3 (counterexample to the claim as stated): an accepted deactivation of
an isolated active node whose density `0.65` is above a soliton threshold
of `0.5` leaves the reservoir at exactly `5`, instead of increasing it by
`refund_factor · density = 0.65 ≠ 0` (here `refund_factor = 1`). -/
theorem c3_refund_counterexample :
    (metropolisResult m3 0 0).sigma 0 = -1 ∧
    (metropolisResult m3 0 0).N_pot = m3.N_pot ∧
    (1 / 2 : ℝ) ≤ getEffectiveRho m3 0 ∧
    (1 : ℝ) * getEffectiveRho m3 0 ≠ 0 := by
  have hacc : metropolisAccepts m3 0 0 := by
    simp [metropolisAccepts, canAffordTransition, deltaEnergyTotal,
      calculateNodeEnergy, calculateBarrierCost, m3, mkModel, gI, cfg3,
      npotFrac, withSigma]
  have hrho : getEffectiveRho m3 0 = 0.65 := by
    rw [getEffectiveRho]
    simp [m3, mkModel, gI, cfg3]
    norm_num
  refine ⟨?_, ?_, ?_, ?_⟩
  · rw [metropolisResult, if_pos hacc]
    simp [m3, mkModel]
  · rw [metropolisResult, if_pos hacc]
    dsimp only
    rw [if_neg (by simp [m3, mkModel])]
  · rw [hrho]; norm_num
  · rw [hrho]; norm_num

/-- C3 witness: the deactivation of the active isolated node of `m3` leaves
`N_pot` untouched. -/
theorem c3_deactivation_no_refund_witness :
    (metropolisResult m3 0 (1 / 2)).N_pot = m3.N_pot :=
  c3_deactivation_no_refund m3 0 (1 / 2) rfl

/-- C4 (amended): for an affordable proposal, a uniform draw `u ∈ [0, 1)`
and a configured temperature above the code's `1e-9` guard, the flip is
accepted whenever the total delta is negative, and otherwise exactly when
`u < exp(-delta / T_eff)` — i.e. with probability `exp(-delta / T_eff)`
under the uniform draw. -/
theorem c4_acceptance_rule (m : WBModel) (node : ℕ) (u : ℝ)
    (hca : canAffordTransition m node (-(m.sigma node)))
    (hT : tEffGuard < m.cfg.T_eff) (_hu0 : 0 ≤ u) (hu1 : u < 1) :
    (deltaEnergyTotal m node < 0 → metropolisAccepts m node u) ∧
      (0 ≤ deltaEnergyTotal m node →
        (metropolisAccepts m node u ↔
          u < Real.exp (-deltaEnergyTotal m node / m.cfg.T_eff))) := by
  constructor
  · intro hd
    exact ⟨hca, Or.inl (le_of_lt hd)⟩
  · intro hd
    constructor
    · rintro ⟨-, hle | ⟨-, hexp⟩⟩
      · have hz : deltaEnergyTotal m node = 0 := le_antisymm hle hd
        rw [hz, neg_zero, zero_div, Real.exp_zero]
        exact hu1
      · exact hexp
    · intro hexp
      exact ⟨hca, Or.inr ⟨hT, hexp⟩⟩

/-- C4 (counterexample to the claim as stated): at the configured
temperature `T_eff = 1e-9 > 0` the affordable activation of `m4`'s node,
with total delta `0.1 > 0` and claimed acceptance probability
`exp(-0.1/1e-9) > 0`, is rejected for the draw `u = 0 < exp(-delta/T)` —
the code's `T_eff > 1e-9` guard disables the exponential branch. -/
theorem c4_tiny_temperature_counterexample :
    0 < m4.cfg.T_eff ∧ 0 < deltaEnergyTotal m4 0 ∧
    canAffordTransition m4 0 (-(m4.sigma 0)) ∧
    (0 : ℝ) < Real.exp (-deltaEnergyTotal m4 0 / m4.cfg.T_eff) ∧
    ¬ metropolisAccepts m4 0 0 := by
  have hd : deltaEnergyTotal m4 0 = 0.1 := by
    rw [deltaEnergyTotal_isolated m4 0 rfl]
    simp [m4, mkModel, gI, cfg4, npotFrac]
    norm_num
  refine ⟨by norm_num [m4, mkModel, cfg4, tEffGuard], by rw [hd]; norm_num,
    ?_, Real.exp_pos _, ?_⟩
  · intro hps
    rw [affordCost, if_pos hps]
    simp [calculateBarrierCost, consumptionTerm, m4, mkModel, gI, cfg4]
    norm_num
  · rintro ⟨-, hle | ⟨hgt, -⟩⟩
    · rw [hd] at hle; norm_num at hle
    · exact absurd hgt (by simp [m4, mkModel, cfg4])

/-- C4 witness: at temperature 1 the same activation (delta `0.1 ≥ 0`) is
accepted for `u = 0` because `0 < exp(-0.1/1)`. -/
theorem c4_acceptance_rule_witness : metropolisAccepts m4w 0 0 := by
  have hd : deltaEnergyTotal m4w 0 = 0.1 := by
    rw [deltaEnergyTotal_isolated m4w 0 rfl]
    simp [m4w, mkModel, gI, cfg4w, npotFrac]
    norm_num
  have h := c4_acceptance_rule m4w 0 0
    (by
      intro hps
      rw [affordCost, if_pos hps]
      simp [calculateBarrierCost, consumptionTerm, m4w, mkModel, gI, cfg4w]
      norm_num)
    (by norm_num [m4w, mkModel, cfg4w, tEffGuard]) (le_refl 0)
    (by norm_num)
  exact (h.2 (by rw [hd]; norm_num)).mpr (Real.exp_pos _)

/-- C5: an unaffordable activation proposal (`N_pot` below the computed
cost) is a silent no-op — `metropolis_step` returns the state bit-for-bit
unchanged (σ, φ, `N_pot`) — and in any sweep order that is a permutation of
`range(num_nodes)` the node is visited exactly once, so the proposal is not
retried within the sweep. -/
theorem c5_unaffordable_activation_noop (m : WBModel) (node : ℕ) (u : ℝ)
    (hs : m.sigma node = -1) (hlt : m.N_pot < affordCost m node 1) :
    metropolisResult m node u = m ∧
      ∀ order : List ℕ, order.Perm (List.range m.g.numNodes) →
        node < m.g.numNodes → order.count node = 1 := by
  constructor
  · have hnacc : ¬ metropolisAccepts m node u := by
      rintro ⟨hca, -⟩
      rw [canAffordTransition] at hca
      have h1 : -(m.sigma node) = 1 := by rw [hs]; norm_num
      have := hca ⟨hs, h1⟩
      rw [h1] at this
      exact absurd this (not_le.mpr hlt)
    rw [metropolisResult, if_neg hnacc]
  · intro order hperm hlt2
    rw [List.perm_iff_count.mp hperm node]
    exact List.count_eq_one_of_mem (List.nodup_range _)
      (List.mem_range.mpr hlt2)

/-- C5 witness: under `cfgC5` the reservoir `0.01` is below the activation
cost `0.1`; the step is the identity and a one-node sweep visits the node
once. -/
theorem c5_unaffordable_activation_noop_witness :
    metropolisResult mC5 0 (1 / 2) = mC5 ∧ (List.range 1).count 0 = 1 := by
  have h := c5_unaffordable_activation_noop mC5 0 (1 / 2) rfl
    (by
      have hc : affordCost mC5 0 1 = 0.1 := by
        rw [affordCost, if_pos (by exact ⟨rfl, rfl⟩)]
        simp [calculateBarrierCost, consumptionTerm, mC5, mkModel, gI, cfgC5]
      rw [hc]
      simp [mC5, mkModel, gI, cfgC5]
      norm_num)
  exact ⟨h.1, h.2 (List.range 1) (List.Perm.refl _) (by norm_num [mC5, mkModel, gI])⟩

/-- C6: the degenerate-neighbour conditions make `next_twist_step` raise
instead of returning: with no neighbours `random.choices` is called on an
empty population (`IndexError`), and with a zero total weight the
normalisation divides by zero (`ZeroDivisionError`); in neither case is the
node's phase/density left unchanged — the `j is None` fallback of
`update_phase_and_rho` is unreachable. -/
theorem c6_degenerate_draw_raises (adj : ℕ → List ℕ) (iso aniso : ℕ → ℝ)
    (T : ℕ → ℕ → ℝ) (pick : ℕ → List ℕ → List ℝ → ℕ) (i : ℕ) :
    (adj i = [] →
      nextTwistStep adj iso aniso T pick i = .error .emptyPopulation) ∧
      (adj i ≠ [] → (twistWeights adj iso aniso T i).sum = 0 →
        nextTwistStep adj iso aniso T pick i = .error .zeroDivision) := by
  constructor
  · intro h
    rw [nextTwistStep, if_pos h]
  · intro h1 h2
    rw [nextTwistStep, if_neg h1, if_pos h2]

/-- C6 witness: an isolated node makes the draw raise. -/
theorem c6_degenerate_draw_raises_witness :
    nextTwistStep (fun _ => []) isoW anisoW tW pickW 0 =
      .error .emptyPopulation :=
  (c6_degenerate_draw_raises (fun _ => []) isoW anisoW tW pickW 0).1 rfl

/-- C8: on the path `0 - 1 - 2` with densities `0, 1, 2` and `eps0 = 1`,
the directional weights across the edge `(0, 1)` differ:
`T_{0→1} = 1/2 ≠ 1/3 = T_{1→0}`, because each uses its source node's own
local gradient in the denominator. -/
theorem c8_directional_weight_asymmetry :
    gEffT adjC8 rhoC8 1 0 1 ≠ gEffT adjC8 rhoC8 1 1 0 ∧
    rhoC8 0 ≠ rhoC8 1 ∧ (1 : ℕ) ∈ adjC8 0 ∧ (0 : ℕ) ∈ adjC8 1 := by
  refine ⟨?_, by norm_num [rhoC8], by simp [adjC8], by simp [adjC8]⟩
  rw [gEffT, gEffT, gradTwo, gradTwo]
  simp [adjC8, rhoC8]
  norm_num

/-- C1 (amended): with the initial fill fraction in `[0, 1]` and a
nonnegative sizing factor, base activation cost, barrier height `V0_base`
and phase coefficient `alpha_phase`, the reservoir invariant
`0 ≤ N_pot ≤ N_pot_max` holds at initialisation and before and after every
component: it is preserved by each Metropolis step and by whole sweeps, the
relaxation pass never touches `N_pot` or `N_pot_max`, and the
(spec-modelled) cluster accountant keeps the reservoir inside its bounds;
the metric computation and the propagation step do not read or write
`N_pot` at all (their embeddings have no reservoir argument). -/
theorem c1_reservoir_bounds :
    (∀ (g : WBGraph) (cfg : WBConfig) (sigma : ℕ → ℤ) (phi : ℕ → ℝ),
      0 ≤ cfg.N_pot_initial_fraction → cfg.N_pot_initial_fraction ≤ 1 →
      0 ≤ cfg.N_pot_max_sites_factor →
      NPotInv (mkModel g cfg sigma phi)) ∧
    (∀ (m : WBModel) (node : ℕ) (u : ℝ), BarrierOK m.cfg → NPotInv m →
      NPotInv (metropolisResult m node u)) ∧
    (∀ (us : ℕ → ℝ) (order : List ℕ) (m : WBModel) (k : ℕ),
      BarrierOK m.cfg → NPotInv m → NPotInv (sweepFrom us m order k)) ∧
    (∀ (m : WBModel) (k : ℕ), (relaxPhases m k).N_pot = m.N_pot ∧
      (relaxPhases m k).N_pot_max = m.N_pot_max) ∧
    (∀ (α : Type) [LinearOrderedField α] (adj : ℕ → List ℕ)
      (nodes : List ℕ) (rho : ℕ → α) (threshold rf maxN : α)
      (prior current : ℕ → ℤ) (npot : α), 0 ≤ npot → npot ≤ maxN →
      0 ≤ clusterAccountant adj nodes rho threshold rf maxN prior current
          npot ∧
        clusterAccountant adj nodes rho threshold rf maxN prior current
          npot ≤ maxN) := by
  refine ⟨mkModel_inv, metropolisResult_inv, sweepFrom_inv,
    fun m k => relaxPhases_npot k m, ?_⟩
  intro α inst adj nodes rho threshold rf maxN prior current npot h0 h1
  exact accountant_fold_bounds rf maxN prior current rho _ npot h0 h1

/-- C1 (counterexample to the claim as stated): the claim's hypotheses only
bound the fill fraction above by 1; with `N_pot_initial_fraction = -1` and a
nonnegative base activation cost, the reservoir starts at `-10 < 0` and the
invariant fails before any component runs. -/
theorem c1_negative_fill_counterexample :
    cfgBad.N_pot_initial_fraction ≤ 1 ∧
    0 ≤ cfgBad.delta_Npot_base_actualisation ∧
    (mkModel gI cfgBad (fun _ => -1) (fun _ => 0)).N_pot < 0 := by
  refine ⟨by norm_num [cfgBad], by norm_num [cfgBad], ?_⟩
  norm_num [mkModel, gI, cfgBad]

/-- C1 witness: under the default-like `cfg3` the invariant holds at
initialisation, is preserved by a Metropolis step, relaxation leaves the
reservoir alone, and the cluster accountant stays inside `[0, 10]`. -/
theorem c1_reservoir_bounds_witness :
    NPotInv m3 ∧ NPotInv (metropolisResult m3 0 (1 / 2)) ∧
      (relaxPhases m3 1).N_pot = m3.N_pot ∧
      (0 : ℚ) ≤ clusterAccountant adjW [0, 1] (fun _ => 1) 0 1 10
        (fun _ => 1) (fun _ => -1) 5 := by
  have h1 : NPotInv m3 := c1_reservoir_bounds.1 gI cfg3 (fun _ => 1)
    (fun _ => 0) (by norm_num [cfg3]) (by norm_num [cfg3])
    (by norm_num [cfg3])
  refine ⟨h1, ?_, (c1_reservoir_bounds.2.2.2.1 m3 1).1, ?_⟩
  · exact c1_reservoir_bounds.2.1 m3 0 (1 / 2)
      (by refine ⟨?_, ?_, ?_⟩ <;> norm_num [m3, mkModel, cfg3, BarrierOK]) h1
  · exact (c1_reservoir_bounds.2.2.2.2 ℚ adjW [0, 1] (fun _ => 1) 0 1 10
      (fun _ => 1) (fun _ => -1) 5 (by norm_num) (by norm_num)).1

/-- C9 (amended): provided the base activation cost, `V0_base` and
`alpha_phase` are nonnegative (so that every computed P→A cost is
nonnegative), the reservoir never increases: each Metropolis step weakly
decreases `N_pot` (and leaves it untouched unless the node is in state P),
whole sweeps weakly decrease it, and the relaxation pass never changes it.
Without the extra sign conditions the statement is false (see the
counterexample). -/
theorem c9_reservoir_monotone :
    (∀ (m : WBModel) (node : ℕ) (u : ℝ), BarrierOK m.cfg → 0 ≤ m.N_pot →
      (metropolisResult m node u).N_pot ≤ m.N_pot) ∧
    (∀ (m : WBModel) (node : ℕ) (u : ℝ), m.sigma node ≠ -1 →
      (metropolisResult m node u).N_pot = m.N_pot) ∧
    (∀ (us : ℕ → ℝ) (order : List ℕ) (m : WBModel) (k : ℕ),
      BarrierOK m.cfg → 0 ≤ m.N_pot →
      (sweepFrom us m order k).N_pot ≤ m.N_pot) ∧
    (∀ (m : WBModel) (k : ℕ), (relaxPhases m k).N_pot = m.N_pot) := by
  refine ⟨metropolisResult_npot_le, ?_, sweepFrom_npot_le,
    fun m k => (relaxPhases_npot k m).1⟩
  intro m node u hs
  rw [metropolisResult]
  split
  · dsimp only
    rw [if_neg (fun hc => hs hc.1)]
  · rfl

/-- C9 (counterexample to the claim as stated): with `V0_base = -1` (and
base activation cost `0`, which satisfies the claim's proviso) the TS-link
barrier of the accepted P→A flip of `m9`'s node 0 is `-1/2`, so
`update_N_pot` is called with a negative cost and the reservoir rises from
`5` to `5.5`. -/
theorem c9_negative_barrier_counterexample :
    0 ≤ m9.cfg.delta_Npot_base_actualisation ∧ m9.N_pot = 5 ∧
    (metropolisResult m9 0 0).N_pot = 5.5 := by
  have hcost : affordCost m9 0 (-(m9.sigma 0)) = -(1 / 2) := by
    rw [affordCost, if_pos (by constructor <;> simp [m9, mkModel, g9, cfg9])]
    simp [calculateBarrierCost, consumptionTerm, barrierTerm, m9, mkModel, g9,
      cfg9, npotFrac]
    norm_num
  have hacc : metropolisAccepts m9 0 0 := by
    constructor
    · intro _
      rw [hcost]
      norm_num [m9, mkModel, g9, cfg9]
    · left
      rw [deltaEnergyTotal]
      simp [calculateNodeEnergy, calculateBarrierCost, barrierTerm, m9,
        mkModel, g9, cfg9, npotFrac, withSigma, calculateInteractionEnergy]
  have h5 : m9.N_pot = 5 := by
    simp [m9, mkModel, g9, cfg9]
    norm_num
  refine ⟨by norm_num [m9, mkModel, cfg9], h5, ?_⟩
  rw [metropolisResult, if_pos hacc]
  dsimp only
  rw [if_pos (by constructor <;> simp [m9, mkModel, g9, cfg9]), updateNPot,
    hcost, h5]
  norm_num

/-- C9 witness: under the default-like `cfg3` a Metropolis step cannot
increase the reservoir of `m3`. -/
theorem c9_reservoir_monotone_witness :
    (metropolisResult m3 0 (1 / 2)).N_pot ≤ m3.N_pot := by
  refine c9_reservoir_monotone.1 m3 0 (1 / 2) ?_ ?_
  · refine ⟨?_, ?_, ?_⟩ <;> norm_num [m3, mkModel, cfg3, BarrierOK]
  · simp [m3, mkModel, gI, cfg3]
    norm_num

/-- C7 (amended): one `relax_phases` step does not set an active node's
phase to the circular mean of its active neighbours; instead it adds
`delta_phi_relaxation_step` times the XY force
`Σ -J_eff·sin(φi - φj - π·ts)` over the node's active neighbours, reduced
`mod 2π`, with all forces computed from the pre-step phases; inactive nodes
and nodes at index `≥ num_nodes` are unchanged, and an active node with no
active neighbours keeps its phase (already in `[0, 2π)`) exactly. -/
theorem c7_relaxation_xy_step (m : WBModel) (i : ℕ) :
    (¬(i < m.g.numNodes ∧ m.sigma i = 1) →
      (relaxPhases m 1).phi i = m.phi i) ∧
    (i < m.g.numNodes → m.sigma i = 1 →
      (relaxPhases m 1).phi i =
        (let y := pyMod (m.phi i + m.cfg.delta_phi_relaxation_step *
            (((m.g.adj i).filter (fun j => m.sigma j == 1)).map (fun j =>
              -(if m.g.ts i j then m.cfg.J_prime_Wb_ts else
                m.cfg.J_Wb_normal) *
                Real.sin (m.phi i - m.phi j -
                  (if m.g.ts i j then Real.pi else 0)))).sum)
          (2 * Real.pi);
         if y < 0 then y + 2 * Real.pi else y)) ∧
    (i < m.g.numNodes → m.sigma i = 1 → (∀ j ∈ m.g.adj i, m.sigma j ≠ 1) →
      0 ≤ m.phi i → m.phi i < 2 * Real.pi →
      (relaxPhases m 1).phi i = m.phi i) := by
  have hstep : relaxPhases m 1 = relaxOnce m := rfl
  have hforce : m.sigma i = 1 → relaxForce m i =
      (((m.g.adj i).filter (fun j => m.sigma j == 1)).map (fun j =>
        -(if m.g.ts i j then m.cfg.J_prime_Wb_ts else m.cfg.J_Wb_normal) *
          Real.sin (m.phi i - m.phi j -
            (if m.g.ts i j then Real.pi else 0)))).sum := by
    intro hs
    rw [relaxForce, if_pos hs, ← sum_map_ite_eq_sum_filter]
    congr 1
    refine List.map_congr_left ?_
    intro j _
    by_cases hj : m.sigma j = 1 <;> simp [hj]
  refine ⟨?_, ?_, ?_⟩
  · intro h
    rw [hstep, relaxOnce]
    dsimp only
    rw [if_neg h]
  · intro h1 h2
    rw [hstep, relaxOnce]
    dsimp only
    rw [if_pos ⟨h1, h2⟩, hforce h2]
  · intro h1 h2 hnone hphi0 hphi1
    rw [hstep, relaxOnce]
    dsimp only
    rw [if_pos ⟨h1, h2⟩]
    have hf : relaxForce m i = 0 := by
      rw [relaxForce, if_pos h2]
      apply List.sum_eq_zero
      intro x hx
      obtain ⟨j, hj, rfl⟩ := List.mem_map.mp hx
      rw [if_neg (hnone j hj)]
    rw [hf, mul_zero, add_zero, pyMod_eq_self hphi0 hphi1,
      if_neg (not_lt.mpr hphi0)]

/-- C7 (counterexample to the claim as stated): in `m7` node 0 is active
with the single active neighbour 1 at phase `π/2`, so the circular mean of
its active neighbours' pre-relaxation phases is `π/2`; one relaxation step
instead moves node 0's phase from `0` to `0.1 ≠ π/2`. -/
theorem c7_circular_mean_counterexample :
    m7.sigma 0 = 1 ∧ m7.sigma 1 = 1 ∧ (1 : ℕ) ∈ m7.g.adj 0 ∧
    m7.phi 1 = Real.pi / 2 ∧ (relaxPhases m7 1).phi 0 = 0.1 ∧
    (0.1 : ℝ) ≠ Real.pi / 2 := by
  have hpi := Real.pi_gt_three
  refine ⟨rfl, rfl, by simp [m7, mkModel, g7], by simp [m7, mkModel], ?_,
    by nlinarith⟩
  show (relaxOnce m7).phi 0 = 0.1
  rw [relaxOnce]
  have hforce : relaxForce m7 0 = 1 := by
    rw [relaxForce]
    simp [m7, mkModel, g7, cfg7, Real.sin_pi_div_two]
  dsimp only
  rw [if_pos (by constructor <;> simp [m7, mkModel, g7]), hforce]
  have harg : m7.phi 0 + m7.cfg.delta_phi_relaxation_step * 1 = 0.1 := by
    simp [m7, mkModel, g7, cfg7]
  rw [harg]
  have hmod : pyMod 0.1 (2 * Real.pi) = 0.1 :=
    pyMod_eq_self (by norm_num) (by nlinarith)
  rw [hmod]
  norm_num

/-- C7 witness: the active isolated node of `m7i` (no active neighbours,
phase `1 ∈ [0, 2π)`) keeps its phase, and the inactive node of `mC5` is
untouched by relaxation. -/
theorem c7_relaxation_xy_step_witness :
    (relaxPhases m7i 1).phi 0 = m7i.phi 0 ∧
    (relaxPhases mC5 1).phi 0 = mC5.phi 0 := by
  constructor
  · refine (c7_relaxation_xy_step m7i 0).2.2 ?_ rfl ?_ ?_ ?_
    · simp [m7i, mkModel, gI]
    · intro j hj
      simp [m7i, mkModel, gI] at hj
    · norm_num [m7i, mkModel]
    · have := Real.pi_gt_three
      norm_num [m7i, mkModel]
      nlinarith
  · refine (c7_relaxation_xy_step mC5 0).1 ?_
    rintro ⟨-, h2⟩
    revert h2
    simp [mC5, mkModel]

/-- C2 (spec-modelled accountant over the source's
`find_soliton_clusters`): if the cluster enumeration yields exactly one
component satisfying the dissolution condition (a member active in the
prior snapshot, every member inactive now), the reservoir is increased by
exactly `refund_factor · Σ(density over its members)` before clamping to
`[0, reservoir_max]`; if no component satisfies it, the reservoir is
unchanged. -/
theorem c2_cluster_dissolution_refund {α : Type} [LinearOrderedField α]
    (adj : ℕ → List ℕ) (nodes : List ℕ) (rho : ℕ → α)
    (threshold rf maxN : α) (prior current : ℕ → ℤ) (npot : α) :
    (∀ (l₁ l₂ : List (List ℕ)) (c : List ℕ),
      findSolitonClusters adj nodes rho threshold = l₁ ++ c :: l₂ →
      dissolved prior current c = true →
      (∀ c' ∈ l₁, dissolved prior current c' = false) →
      (∀ c' ∈ l₂, dissolved prior current c' = false) →
      clusterAccountant adj nodes rho threshold rf maxN prior current npot =
        min maxN (max 0 (npot + rf * (c.map rho).sum))) ∧
    ((∀ c ∈ findSolitonClusters adj nodes rho threshold,
        dissolved prior current c = false) →
      clusterAccountant adj nodes rho threshold rf maxN prior current npot =
        npot) := by
  constructor
  · intro l₁ l₂ c hfind hc h1 h2
    rw [clusterAccountant, hfind, List.foldl_append,
      accountant_inert rf maxN prior current rho l₁ npot h1,
      List.foldl_cons, clusterRefundStep, if_pos hc,
      accountant_inert rf maxN prior current rho l₂ _ h2]
  · intro h
    rw [clusterAccountant,
      accountant_inert rf maxN prior current rho _ npot h]

/-- C2 witness: two threshold-passing nodes `0 - 1` form one component; a
prior-active, now-inactive assignment refunds `1 · (1 + 1)` onto the
reservoir 5, giving `min 10 (max 0 7) = 7`. -/
theorem c2_cluster_dissolution_refund_witness :
    clusterAccountant adjW [0, 1] (fun _ => (1 : ℚ)) 0 1 10 (fun _ => 1)
      (fun _ => -1) 5 = 7 := by
  have h := (c2_cluster_dissolution_refund adjW [0, 1] (fun _ => (1 : ℚ)) 0 1
    10 (fun _ => 1) (fun _ => -1) 5).1 [] [] [0, 1] (by decide) (by decide)
    (by intro c' hc'; simp at hc') (by intro c' hc'; simp at hc')
  rw [h]
  norm_num

/-- C10: whenever `update_phase_and_rho` completes (a neighbour was drawn
for every node), the new density of each processed node is exactly its
activation baseline plus `0.3` — `0.4` for σ = -1 and `0.9` otherwise —
independently of every phase value, because the coherence
`|exp(1j · new_phi[j])|` of the single drawn neighbour is identically 1. -/
theorem c10_density_constant_after_update (adj : ℕ → List ℕ)
    (iso aniso : ℕ → ℝ) (T : ℕ → ℕ → ℝ)
    (pick1 pick2 : ℕ → List ℕ → List ℝ → ℕ) (sigma : ℕ → ℤ)
    (rho phi : ℕ → ℝ) (c2 c3 : ℝ) (nodes : List ℕ) (i : ℕ)
    (h : ∀ j ∈ nodes, adj j ≠ [] ∧ (twistWeights adj iso aniso T j).sum ≠ 0)
    (hi : i ∈ nodes) :
    (updatePhaseAndRho adj iso aniso T pick1 pick2 sigma rho phi c2 c3
        nodes).map (fun pr => pr.2 i) =
      .ok (if sigma i = -1 then (0.4 : ℝ) else 0.9) := by
  obtain ⟨nphi, hphi⟩ := phiPass_ok adj iso aniso T pick1 rho phi c2 c3 nodes
    (fun _ => 0) h
  obtain ⟨f, hok, hval⟩ := rhoPass_ok adj iso aniso T pick2 sigma nphi nodes
    (fun _ => 0) h
  rw [updatePhaseAndRho, hphi]
  dsimp only
  rw [hok]
  dsimp only [Except.map]
  rw [if_pos hi, (hval i).1 hi]

/-- C10 witness: on the two-node graph with unit isotropic weights the
update completes and the (inactive) node 0 ends with density exactly
`0.4`. -/
theorem c10_density_constant_after_update_witness :
    (updatePhaseAndRho adjW isoW anisoW tW pickW pickW (fun _ => -1)
        (fun _ => 0) (fun _ => 0) 0 0 [0, 1]).map (fun pr => pr.2 0) =
      .ok (0.4 : ℝ) := by
  have h := c10_density_constant_after_update adjW isoW anisoW tW pickW pickW
    (fun _ => -1) (fun _ => 0) (fun _ => 0) 0 0 [0, 1] 0
    (by
      intro j hj
      fin_cases hj <;>
        exact ⟨by simp [adjW], by simp [twistWeights, adjW, isoW, anisoW, tW]⟩)
    (by simp)
  simpa using h

end RP2WB
